import Mathlib

/-!
Verification development for the photo-curator repository.

Shallow embedding of the core modules the specification talks about:
resolver (src/photo_curator/resolver.py), filename-size matching
(src/photo_curator/matching/filename_size.py), the transfer engine
(src/photo_curator/mover.py) and the undo engine
(src/photo_curator/undo.py).

Modelling conventions:
* Paths handled only as opaque strings by the Python code are `String`s;
  paths whose stem/suffix/parent structure the code manipulates
  (collision resolution) are a structured `FsPath`.
* The filesystem is a function from paths: to `Bool` (existence) for the
  mover, to `Option Nat` (byte size, `none` = absent) for undo.
* `Path.resolve()` canonicalisation is an uninterpreted parameter
  `canon : String → String`.
* Logging, log-file writing and directory creation/pruning are not part
  of the model; counters, record lists, transfer order and file-level
  mutations are modelled exactly.
-/

namespace PhotoCurator

/-! ### models.py -/

/-- The `Action` enum from models.py. -/
inductive Action where
  | store
  | discardSource
  | discardExisting
  | skip
  | noDate
deriving DecidableEq, Repr

/-! ### resolver.py -/

/-- The fields of a `FileRecord` that `Resolver.resolve` reads:
`source.path.name`, `str(source.path)` (fed to `Path.resolve()`),
`year` and `month`. -/
structure RFileRecord where
  pathName : String
  pathStr : String
  year : Option String
  month : Option String
deriving DecidableEq, Repr

/-- A `MatchResult` as consumed by the resolver. -/
structure RMatchResult where
  source : RFileRecord
  matchedDest : Option String
  isDuplicate : Bool
deriving DecidableEq, Repr

/-- The two directories of `CuratorConfig` the resolver uses. -/
structure RConfig where
  destination : String
  discard : String
deriving DecidableEq, Repr

/-- `pathlib`'s `dir / name` join. -/
def joinPath (dir name : String) : String := dir ++ "/" ++ name

/-- A planned `FileAction` (the `reason` log string is not modelled). -/
structure RFileAction where
  source : RFileRecord
  action : Action
  destinationPath : String
deriving DecidableEq, Repr

/-- `Resolver._target_dir`: `destination / year / month` when both are
Python-truthy (present and non-empty), else `destination / "NoDate"`. -/
def targetDir (cfg : RConfig) (r : RFileRecord) : String :=
  match r.year, r.month with
  | some y, some m =>
      if y = "" ∨ m = "" then joinPath cfg.destination "NoDate"
      else joinPath (joinPath cfg.destination y) m
  | _, _ => joinPath cfg.destination "NoDate"

/-- The body of the per-result loop of `Resolver.resolve`, with
`canon` standing for `Path.resolve()`. -/
def resolveOne (canon : String → String) (cfg : RConfig) (mr : RMatchResult) :
    RFileAction :=
  if mr.isDuplicate then
    ⟨mr.source, Action.discardSource, joinPath cfg.discard mr.source.pathName⟩
  else
    let targetPath := joinPath (targetDir cfg mr.source) mr.source.pathName
    if canon targetPath = canon mr.source.pathStr then
      ⟨mr.source, Action.skip, targetPath⟩
    else if mr.source.year = none then
      ⟨mr.source, Action.noDate, targetPath⟩
    else
      ⟨mr.source, Action.store, targetPath⟩

/-- `Resolver.resolve`: one action per match result, in order. -/
def resolverResolve (canon : String → String) (cfg : RConfig)
    (mrs : List RMatchResult) : List RFileAction :=
  mrs.map (resolveOne canon cfg)

/-- Spec-side restatement of claim C1's disposition rule, written from
the claim's words ("present" read as `isSome`): duplicates go to
`discard/name`; otherwise the target is `destination/year/month` when
both parts are present else `destination/NoDate`, joined with the
filename; equal resolved paths give Skip; else NoDate when the year is
absent and Store when it is present. -/
def specResolveOne (canon : String → String) (cfg : RConfig)
    (mr : RMatchResult) : RFileAction :=
  if mr.isDuplicate then
    ⟨mr.source, Action.discardSource, joinPath cfg.discard mr.source.pathName⟩
  else
    let tdir :=
      if mr.source.year.isSome ∧ mr.source.month.isSome then
        joinPath (joinPath cfg.destination (mr.source.year.getD ""))
          (mr.source.month.getD "")
      else joinPath cfg.destination "NoDate"
    let targetPath := joinPath tdir mr.source.pathName
    if canon targetPath = canon mr.source.pathStr then
      ⟨mr.source, Action.skip, targetPath⟩
    else if mr.source.year = none then
      ⟨mr.source, Action.noDate, targetPath⟩
    else
      ⟨mr.source, Action.store, targetPath⟩

/-- Date fields as `metadata.parse_date` produces them: when present
they are non-empty digit strings, never `""`. -/
def wfDates (r : RFileRecord) : Prop :=
  r.year ≠ some "" ∧ r.month ≠ some ""

/-! ### matching/filename_size.py -/

/-- The fields of a source `FileRecord` the strategy reads. -/
structure MFile where
  pathStr : String
  name : String
  size : Nat
deriving DecidableEq, Repr

/-- A `MatchResult` as produced by the strategy. -/
structure MResult where
  source : MFile
  matchedDest : Option String
  isDuplicate : Bool
deriving DecidableEq, Repr

/-- Python's `str.lower()`, written on the character list (extensionally
the same as `String.toLower`, but evaluable by the kernel). -/
def strLower (s : String) : String := String.mk (s.data.map Char.toLower)

/-- The `(lowercased filename, byte size)` index key. -/
def fsKey (f : MFile) : String × Nat := (strLower f.name, f.size)

/-- The destination index: a dict modelled as a total function to path
lists; the empty list plays the role of an absent key (`build_index`
and `match_all` never store an empty list under a key). -/
def Index : Type := String × Nat → List String

/-- The dict mutation in `match_all`'s novel branch:
`dest_index.setdefault(key, []).append(path)`. -/
def idxInsert (idx : Index) (k : String × Nat) (p : String) : Index :=
  fun k2 => if k2 = k then idx k ++ [p] else idx k2

/-- `FilenameSizeStrategy.match_all`: one result per file in order;
a file is duplicate when its key has matches; a novel file's key is
inserted into the working index for intra-batch dedup. -/
def matchAll (idx : Index) : List MFile → List MResult
  | [] => []
  | f :: rest =>
      let k := fsKey f
      let ms := idx k
      if ms = [] then
        ⟨f, none, false⟩ :: matchAll (idxInsert idx k f.pathStr) rest
      else
        ⟨f, ms.head?, true⟩ :: matchAll idx rest

/-! ### mover.py -/

/-- A path as `resolve_duplicate_name` decomposes it: parent directory,
stem, suffix (extension). The file's name is `stem ++ suffix`. -/
structure FsPath where
  parent : String
  stem : String
  suffix : String
deriving DecidableEq, Repr

/-- The mover's view of the filesystem: which paths exist. -/
def Fs : Type := FsPath → Bool

/-- Python's `f"{n:03d}"` for the counter values the collision loop can
produce (`1 ≤ n ≤ 9999`): three digits zero-padded, four digits once the
counter passes 999. -/
def pad3 (n : Nat) : String :=
  if n < 1000 then
    String.mk [Nat.digitChar (n / 100), Nat.digitChar (n / 10 % 10),
      Nat.digitChar (n % 10)]
  else
    String.mk [Nat.digitChar (n / 1000), Nat.digitChar (n / 100 % 10),
      Nat.digitChar (n / 10 % 10), Nat.digitChar (n % 10)]

/-- The candidate `parent / f"{stem}_{counter:03d}{suffix}"` built by the
collision loop. -/
def candidatePath (target : FsPath) (counter : Nat) : FsPath :=
  ⟨target.parent, target.stem ++ "_" ++ pad3 counter, target.suffix⟩

/-- The `for counter in range(1, 10000)` loop of `resolve_duplicate_name`,
as fuelled recursion: `fuel` is the number of counter values left to try. -/
def findFree (fs : Fs) (target : FsPath) : Nat → Nat → Except String FsPath
  | 0, _ => Except.error "Too many duplicates"
  | fuel + 1, counter =>
      let c := candidatePath target counter
      if fs c then findFree fs target fuel (counter + 1) else Except.ok c

/-- `resolve_duplicate_name`: the target itself when free, else the first
free `_NNN` candidate; `RuntimeError` (modelled as `Except.error`) after
9999 failed attempts. -/
def resolveDuplicateName (fs : Fs) (target : FsPath) : Except String FsPath :=
  if fs target then findFree fs target 9999 1 else Except.ok target

/-- The `OperationRecord` fields the mover writes (the unused
`matched_existing` field is omitted). -/
structure OpRecord where
  action : Action
  source : FsPath
  destination : FsPath
  sourceSize : Nat
  sidecars : List (FsPath × FsPath)
deriving DecidableEq, Repr

/-- The mover's configuration slice: mode, dry-run flag, discard dir. -/
structure MConfig where
  modeMove : Bool
  dryRun : Bool
  discard : String
deriving DecidableEq, Repr

/-- A planned action as the mover consumes it: source path and size,
action kind, target path, attached sidecar paths. -/
structure MAction where
  src : FsPath
  srcSize : Nat
  action : Action
  destinationPath : FsPath
  sidecars : List FsPath
deriving DecidableEq, Repr

/-- Mutable state threaded through `Mover.execute`: filesystem, manifest
record list, transfer trace (the sequence of `_transfer` calls, for
order reasoning) and the `PipelineResult` counters. -/
structure MoverState where
  fs : Fs
  records : List OpRecord
  trace : List (FsPath × FsPath)
  stored : Nat
  discarded : Nat
  skipped : Nat
  noDate : Nat
  errors : Nat

/-- `Mover._transfer`: log (traced), then mutate nothing in dry-run,
else move (source removed, destination created) or copy (destination
created). -/
def transfer (cfg : MConfig) (src dest : FsPath) (st : MoverState) :
    MoverState :=
  let st := { st with trace := st.trace ++ [(src, dest)] }
  if cfg.dryRun then st
  else if cfg.modeMove then
    { st with fs := fun p => if p = dest then true
        else if p = src then false else st.fs p }
  else
    { st with fs := fun p => if p = dest then true else st.fs p }

/-- The sidecar loop shared by the store and discard branches of
`Mover._execute_one`: transfer each sidecar to `scParent / name` after
collision resolution, accumulating the `(source, destination)` pairs;
a collision-resolution failure aborts the loop with the partial state
(the raised exception propagates out of `_execute_one`). -/
def sidecarLoop (cfg : MConfig) (scParent : String) :
    List FsPath → MoverState → List (FsPath × FsPath) →
    MoverState × List (FsPath × FsPath) × Bool
  | [], st, acc => (st, acc, true)
  | sc :: rest, st, acc =>
      match resolveDuplicateName st.fs ⟨scParent, sc.stem, sc.suffix⟩ with
      | Except.error _ => (st, acc, false)
      | Except.ok scDest =>
          let st := transfer cfg sc scDest st
          sidecarLoop cfg scParent rest st (acc ++ [(sc, scDest)])

/-- `Mover._execute_one` (with `_record_operation` inlined, manifest
always attached): returns the new state and whether the body completed
without an exception. On an exception the partial state is kept, as in
Python. -/
def execOne (cfg : MConfig) (fa : MAction) (st : MoverState) :
    MoverState × Bool :=
  match fa.action with
  | Action.skip => ({ st with skipped := st.skipped + 1 }, true)
  | Action.store | Action.noDate =>
      match resolveDuplicateName st.fs fa.destinationPath with
      | Except.error _ => (st, false)
      | Except.ok dest =>
          let st1 := transfer cfg fa.src dest st
          match sidecarLoop cfg dest.parent fa.sidecars st1 [] with
          | (st2, _, false) => (st2, false)
          | (st2, scRecs, true) =>
              let st3 := { st2 with
                records := st2.records ++
                  [(⟨fa.action, fa.src, dest, fa.srcSize, scRecs⟩ : OpRecord)] }
              if fa.action = Action.noDate then
                ({ st3 with noDate := st3.noDate + 1 }, true)
              else
                ({ st3 with stored := st3.stored + 1 }, true)
  | Action.discardSource =>
      match resolveDuplicateName st.fs fa.destinationPath with
      | Except.error _ => (st, false)
      | Except.ok dest =>
          let st1 := transfer cfg fa.src dest st
          match sidecarLoop cfg cfg.discard fa.sidecars st1 [] with
          | (st2, _, false) => (st2, false)
          | (st2, scRecs, true) =>
              let st3 := { st2 with
                records := st2.records ++
                  [(⟨fa.action, fa.src, dest, fa.srcSize, scRecs⟩ : OpRecord)] }
              ({ st3 with discarded := st3.discarded + 1 }, true)
  | Action.discardExisting => (st, true)

/-- `Mover.execute`: run each action; a per-action exception is caught,
counted in `errors`, and the remaining actions continue. -/
def moverExecute (cfg : MConfig) (actions : List MAction)
    (st : MoverState) : MoverState :=
  actions.foldl
    (fun st fa =>
      match execOne cfg fa st with
      | (st2, true) => st2
      | (st2, false) => { st2 with errors := st2.errors + 1 })
    st

/-- A fresh `MoverState` over a filesystem: `PipelineResult()` counters
all zero, no records, no trace. -/
def initState (fs : Fs) : MoverState := ⟨fs, [], [], 0, 0, 0, 0, 0⟩

/-! ### undo.py

Undo handles paths as opaque strings; its filesystem view maps a path
string to the byte size of the file there (`none` = no file).
Directory pruning (`_remove_empty_parents`) and parent-directory
creation act on directories only and are outside the file-level model;
the undo-manifest log file is likewise not modelled. -/

/-- Undo's filesystem view: path string to byte size. -/
def FsU : Type := String → Option Nat

/-- A sidecar pair inside a manifest operation. -/
structure SidecarRec where
  source : String
  destination : String
deriving DecidableEq, Repr

/-- One entry of the manifest's `operations` list, as undo reads it. -/
structure UndoOp where
  source : String
  destination : String
  sourceSize : Option Nat
  sidecars : List SidecarRec
deriving DecidableEq, Repr

/-- One `_undo_one` call: source, destination, and the recorded size
passed (`none` for sidecars). -/
structure UndoEntry where
  source : String
  destination : String
  size : Option Nat
deriving DecidableEq, Repr

/-- The entry built for a sidecar: `source_size=None`. -/
def sidecarEntry (sc : SidecarRec) : UndoEntry := ⟨sc.source, sc.destination, none⟩

/-- The entry built for a record's primary file. -/
def primaryEntry (op : UndoOp) : UndoEntry :=
  ⟨op.source, op.destination, op.sourceSize⟩

/-- The sequence of `_undo_one` calls made by `undo`'s nested loops:
records in reverse order; within a record, sidecars in reverse order
first, then the primary file. -/
def undoEntries (ops : List UndoOp) : List UndoEntry :=
  ops.reverse.flatMap
    (fun op => op.sidecars.reverse.map sidecarEntry ++ [primaryEntry op])

/-- The per-record application order of the original run
(`Mover._execute_one` transfers the primary file first, then the
sidecars in recorded order). -/
def applyEntriesOfRecord (op : UndoOp) : List UndoEntry :=
  primaryEntry op :: op.sidecars.map sidecarEntry

/-- The mode dispatch at the end of `_undo_one`: delete the destination
(copy mode) or move it back to the source path (any other mode), unless
this is a dry run. -/
def undoApply (modeCopy : Bool) (dryRun : Bool) (e : UndoEntry) (cur : Nat)
    (fs : FsU) : FsU × Bool :=
  if modeCopy then
    (if dryRun then fs
     else fun p => if p = e.destination then none else fs p, true)
  else
    (if dryRun then fs
     else fun p => if p = e.source then some cur
       else if p = e.destination then none else fs p, true)

/-- `_undo_one`: success when the destination is already gone
(idempotent); refusal (failure, no mutation) when a recorded size is
present and differs from the destination's current size; else apply the
mode dispatch. Returns the new filesystem and the success flag. -/
def undoOne (modeCopy : Bool) (dryRun : Bool) (e : UndoEntry) (fs : FsU) :
    FsU × Bool :=
  match fs e.destination with
  | none => (fs, true)
  | some cur =>
      match e.size with
      | some s => if cur ≠ s then (fs, false) else undoApply modeCopy dryRun e cur fs
      | none => undoApply modeCopy dryRun e cur fs

/-- The fold step of `undo`'s loop: accumulate the undone count on
success, the error count on failure. -/
def undoStep (modeCopy : Bool) (dryRun : Bool)
    (acc : FsU × Nat × Nat) (e : UndoEntry) : FsU × Nat × Nat :=
  match undoOne modeCopy dryRun e acc.1 with
  | (fs2, true) => (fs2, acc.2.1 + 1, acc.2.2)
  | (fs2, false) => (fs2, acc.2.1, acc.2.2 + 1)

/-- The whole undo loop over a manifest's operations:
`(final filesystem, operations undone, errors)`. -/
def undoRun (modeCopy : Bool) (dryRun : Bool) (ops : List UndoOp)
    (fs : FsU) : FsU × Nat × Nat :=
  (undoEntries ops).foldl (undoStep modeCopy dryRun) (fs, 0, 0)

/-- The `config` sub-dict of a parsed manifest, fields optional as in
raw JSON (`dry_run` is read with `.get(..., False)`). -/
structure RawConfig where
  mode : Option String
  dryRunFlag : Option Bool
deriving DecidableEq, Repr

/-- A parsed manifest JSON document, fields optional. -/
structure RawManifest where
  schemaVersion : Option String
  operations : Option (List UndoOp)
  config : Option RawConfig
deriving DecidableEq, Repr

/-- A validated manifest. -/
structure Manifest where
  modeCopy : Bool
  origDryRun : Bool
  operations : List UndoOp
deriving DecidableEq, Repr

/-- `_load_manifest`'s validation (after JSON parsing, which is outside
the model): `schema_version`, `operations` and `config.mode` must be
present, each missing field a `SystemExit` configuration error. The
only mode compared anywhere is `"copy"`, kept as a Bool. -/
def loadManifest (m : RawManifest) : Except String Manifest :=
  match m.schemaVersion with
  | none => Except.error "manifest missing schema_version field"
  | some _ =>
      match m.operations with
      | none => Except.error "manifest missing operations field"
      | some ops =>
          match m.config with
          | none => Except.error "manifest missing config.mode field"
          | some c =>
              match c.mode with
              | none => Except.error "manifest missing config.mode field"
              | some mode =>
                  Except.ok ⟨mode = "copy", c.dryRunFlag.getD false, ops⟩

/-- `undo`: validate, return early (touching nothing) when the original
run was a dry run or the operation list is empty, else run the loop.
The result is `(filesystem, undone, errors)`; a validation failure is
the `SystemExit` error. -/
def undoFull (dryRun : Bool) (m : RawManifest) (fs : FsU) :
    Except String (FsU × Nat × Nat) :=
  match loadManifest m with
  | Except.error e => Except.error e
  | Except.ok mf =>
      if mf.origDryRun then Except.ok (fs, 0, 0)
      else if mf.operations = [] then Except.ok (fs, 0, 0)
      else Except.ok (undoRun mf.modeCopy dryRun mf.operations fs)

/-- The process exit contract of `undo`: success exactly when
validation passed and no per-file undo failed (`raise SystemExit(1)`
when `errors > 0`). -/
def undoExitOk (dryRun : Bool) (m : RawManifest) (fs : FsU) : Bool :=
  match undoFull dryRun m fs with
  | Except.error _ => false
  | Except.ok (_, _, errors) => errors = 0

/-! ### Auxiliary notions used only in theorem statements -/

/-- How many of the planned actions have the given kind. -/
def countKind (a : Action) (actions : List MAction) : Nat :=
  (actions.filter (fun fa => fa.action = a)).length

/-- The filesystem holding exactly the target `t` and its candidates
`t_001 … t_(N-1)`: the scene of the collision round-trip property. -/
def crowdedFs (t : FsPath) (n : Nat) : Fs :=
  fun p =>
    (p == t) || (List.range n).any (fun i => decide (1 ≤ i) && (p == candidatePath t i))

/-- A filesystem in which every path exists. -/
def fullFs : Fs := fun _ => true

/-- The file-accounting view of a mover state: the four outcome
counters and the number of manifest records. -/
def countersOf (st : MoverState) : Nat × Nat × Nat × Nat × Nat :=
  (st.stored, st.discarded, st.skipped, st.noDate, st.records.length)

/-- What one successfully executed action of each kind contributes to
`countersOf`. -/
def kindDelta (a : Action) : Nat × Nat × Nat × Nat × Nat :=
  match a with
  | Action.store => (1, 0, 0, 0, 1)
  | Action.discardSource => (0, 1, 0, 0, 1)
  | Action.skip => (0, 0, 1, 0, 0)
  | Action.noDate => (0, 0, 0, 1, 1)
  | Action.discardExisting => (0, 0, 0, 0, 0)

/-- The total contribution of a list of actions. -/
def kindDeltas (actions : List MAction) : Nat × Nat × Nat × Nat × Nat :=
  actions.foldr (fun fa acc => kindDelta fa.action + acc) (0, 0, 0, 0, 0)

/-! ## Theorems -/

/-- With dates as `parse_date` produces them, Python truthiness of the
year/month fields coincides with presence. -/
theorem targetDir_eq_spec (cfg : RConfig) (r : RFileRecord) (h : wfDates r) :
    targetDir cfg r =
      if r.year.isSome ∧ r.month.isSome then
        joinPath (joinPath cfg.destination (r.year.getD ""))
          (r.month.getD "")
      else joinPath cfg.destination "NoDate" := by
  obtain ⟨hy, hm⟩ := h
  rcases hy2 : r.year with _ | y <;> rcases hm2 : r.month with _ | m <;>
    simp [targetDir, hy2, hm2]
  rintro (rfl | rfl)
  · exact absurd hy2 hy
  · exact absurd hm2 hm

/-- C1: `Resolver.resolve` assigns each media file exactly one
disposition, the total function of its inputs described by the claim
(spelled out in `specResolveOne`): duplicates are discarded to
`discard/name` (taking precedence over the in-place skip check), the
target is `destination/year/month` when both parts are present else
`destination/NoDate` joined with the filename, an in-place target is
skipped, and otherwise the disposition is NoDate exactly when the year
is absent. The hypothesis records that date fields coming from
`metadata.parse_date` are never the empty string. -/
theorem c1_resolver_disposition (canon : String → String) (cfg : RConfig)
    (mrs : List RMatchResult) (h : ∀ mr ∈ mrs, wfDates mr.source) :
    resolverResolve canon cfg mrs = mrs.map (specResolveOne canon cfg) ∧
    (resolverResolve canon cfg mrs).length = mrs.length ∧
    ∀ mr ∈ mrs, mr.isDuplicate = true →
      (resolveOne canon cfg mr).action = Action.discardSource := by
  refine ⟨?_, by simp [resolverResolve], ?_⟩
  · unfold resolverResolve
    apply List.map_congr_left
    intro mr hmr
    unfold resolveOne specResolveOne
    rw [targetDir_eq_spec cfg mr.source (h mr hmr)]
  · intro mr _ hd
    simp [resolveOne, hd]

/-- Witness for C1 at a concrete two-result input. -/
theorem c1_resolver_disposition_witness :
    resolverResolve id ⟨"dest", "disc"⟩
        [⟨⟨"a.jpg", "src/a.jpg", some "2024", some "01"⟩, some "x", true⟩,
         ⟨⟨"b.jpg", "src/b.jpg", none, none⟩, none, false⟩] =
      List.map (specResolveOne id ⟨"dest", "disc"⟩)
        [⟨⟨"a.jpg", "src/a.jpg", some "2024", some "01"⟩, some "x", true⟩,
         ⟨⟨"b.jpg", "src/b.jpg", none, none⟩, none, false⟩] :=
  (c1_resolver_disposition id ⟨"dest", "disc"⟩ _
    (by
      intro mr hmr
      simp only [List.mem_cons, List.not_mem_nil, or_false] at hmr
      rcases hmr with rfl | rfl <;> exact ⟨by decide, by decide⟩)).1

/-- C7: `match_all` under the filename-size strategy flags a source
file as duplicate exactly when its `(lowercased name, size)` key has
matches in the destination index or equals the key of an earlier file
of the batch that was determined novel. -/
theorem c7_filename_size_duplicate_iff (idx : Index) (files : List MFile)
    (i : Nat) (f : MFile) (r : MResult)
    (hf : files[i]? = some f) (hr : (matchAll idx files)[i]? = some r) :
    r.isDuplicate = true ↔
      (idx (fsKey f) ≠ [] ∨
        ∃ j g s, j < i ∧ files[j]? = some g ∧
          (matchAll idx files)[j]? = some s ∧
          fsKey g = fsKey f ∧ s.isDuplicate = false) := by
  induction files generalizing idx i with
  | nil => simp at hf
  | cons a rest ih =>
    by_cases hk : idx (fsKey a) = []
    · have hm : matchAll idx (a :: rest) =
          ⟨a, none, false⟩ :: matchAll (idxInsert idx (fsKey a) a.pathStr) rest := by
        simp [matchAll, hk]
      rw [hm] at hr
      cases i with
      | zero =>
        simp only [List.getElem?_cons_zero, Option.some.injEq] at hf hr
        subst hf
        subst hr
        simp [hk, Nat.not_lt_zero]
      | succ i' =>
        simp only [List.getElem?_cons_succ] at hf hr
        rw [ih (idxInsert idx (fsKey a) a.pathStr) i' hf hr]
        constructor
        · rintro (hne | ⟨j, g, s, hj, hg, hs, hkey, hdup⟩)
          · by_cases heq : fsKey f = fsKey a
            · refine Or.inr ⟨0, a, ⟨a, none, false⟩, by omega, by simp,
                by rw [hm]; simp, heq.symm, rfl⟩
            · refine Or.inl ?_
              simpa [idxInsert, heq] using hne
          · exact Or.inr ⟨j + 1, g, s, by omega, by simpa using hg,
              by rw [hm]; simpa using hs, hkey, hdup⟩
        · rintro (hne | ⟨j, g, s, hj, hg, hs, hkey, hdup⟩)
          · refine Or.inl ?_
            by_cases heq : fsKey f = fsKey a
            · simp [idxInsert, heq, hk]
            · simpa [idxInsert, heq] using hne
          · cases j with
            | zero =>
              simp only [List.getElem?_cons_zero, Option.some.injEq] at hg
              refine Or.inl ?_
              subst hg
              simp [idxInsert, ← hkey, hk]
            | succ j' =>
              rw [hm] at hs
              simp only [List.getElem?_cons_succ] at hg hs
              exact Or.inr ⟨j', g, s, by omega, hg, hs, hkey, hdup⟩
    · have hm : matchAll idx (a :: rest) =
          ⟨a, (idx (fsKey a)).head?, true⟩ :: matchAll idx rest := by
        simp [matchAll, hk]
      rw [hm] at hr
      cases i with
      | zero =>
        simp only [List.getElem?_cons_zero, Option.some.injEq] at hf hr
        subst hf
        subst hr
        simp [hk]
      | succ i' =>
        simp only [List.getElem?_cons_succ] at hf hr
        rw [ih idx i' hf hr]
        constructor
        · rintro (hne | ⟨j, g, s, hj, hg, hs, hkey, hdup⟩)
          · exact Or.inl hne
          · exact Or.inr ⟨j + 1, g, s, by omega, by simpa using hg,
              by rw [hm]; simpa using hs, hkey, hdup⟩
        · rintro (hne | ⟨j, g, s, hj, hg, hs, hkey, hdup⟩)
          · exact Or.inl hne
          · cases j with
            | zero =>
              rw [hm] at hs
              simp only [List.getElem?_cons_zero, Option.some.injEq] at hs
              subst hs
              simp at hdup
            | succ j' =>
              rw [hm] at hs
              simp only [List.getElem?_cons_succ] at hg hs
              exact Or.inr ⟨j', g, s, by omega, hg, hs, hkey, hdup⟩

/-- Witness for C7: a destination index holding `("img.jpg", 5)`
flags the differently-cased `IMG.JPG` of size 5 as duplicate. -/
theorem c7_filename_size_duplicate_iff_witness :
    ((⟨⟨"s/IMG.JPG", "IMG.JPG", 5⟩, some "d/img.jpg", true⟩ : MResult).isDuplicate = true ↔
      ((fun k => if k = ("img.jpg", 5) then ["d/img.jpg"] else []) (fsKey ⟨"s/IMG.JPG", "IMG.JPG", 5⟩) ≠ [] ∨
        ∃ j g s, j < 0 ∧
          ([⟨"s/IMG.JPG", "IMG.JPG", 5⟩] : List MFile)[j]? = some g ∧
          (matchAll (fun k => if k = ("img.jpg", 5) then ["d/img.jpg"] else [])
            [⟨"s/IMG.JPG", "IMG.JPG", 5⟩])[j]? = some s ∧
          fsKey g = fsKey ⟨"s/IMG.JPG", "IMG.JPG", 5⟩ ∧ s.isDuplicate = false)) :=
  c7_filename_size_duplicate_iff
    (fun k => if k = ("img.jpg", 5) then ["d/img.jpg"] else [])
    [⟨"s/IMG.JPG", "IMG.JPG", 5⟩] 0 ⟨"s/IMG.JPG", "IMG.JPG", 5⟩
    ⟨⟨"s/IMG.JPG", "IMG.JPG", 5⟩, some "d/img.jpg", true⟩ (by rfl) (by decide)

/-! ### Collision resolution (C8, and shared by C3/C4) -/

/-- `Nat.digitChar` is injective on single digits. -/
theorem digitChar_fin_inj :
    ∀ a b : Fin 10, Nat.digitChar a.val = Nat.digitChar b.val → a = b := by decide

/-- The zero-padded counter rendering is injective on the loop's range. -/
theorem pad3_inj (m n : Nat) (hm : m < 10000) (hn : n < 10000)
    (h : pad3 m = pad3 n) : m = n := by
  have dci : ∀ a b : Nat, a < 10 → b < 10 →
      Nat.digitChar a = Nat.digitChar b → a = b := by
    intro a b ha hb hab
    have := digitChar_fin_inj ⟨a, ha⟩ ⟨b, hb⟩ hab
    simpa using congrArg Fin.val this
  unfold pad3 at h
  by_cases h1 : m < 1000 <;> by_cases h2 : n < 1000
  · rw [if_pos h1, if_pos h2] at h
    have hd := congrArg String.data h
    simp only [List.cons.injEq] at hd
    obtain ⟨e1, e2, e3, -⟩ := hd
    have q1 := dci _ _ (by omega) (by omega) e1
    have q2 := dci _ _ (by omega) (by omega) e2
    have q3 := dci _ _ (by omega) (by omega) e3
    omega
  · rw [if_pos h1, if_neg h2] at h
    have hl := congrArg List.length (congrArg String.data h)
    simp at hl
  · rw [if_neg h1, if_pos h2] at h
    have hl := congrArg List.length (congrArg String.data h)
    simp at hl
  · rw [if_neg h1, if_neg h2] at h
    have hd := congrArg String.data h
    simp only [List.cons.injEq] at hd
    obtain ⟨e1, e2, e3, e4, -⟩ := hd
    have q1 := dci _ _ (by omega) (by omega) e1
    have q2 := dci _ _ (by omega) (by omega) e2
    have q3 := dci _ _ (by omega) (by omega) e3
    have q4 := dci _ _ (by omega) (by omega) e4
    omega

/-- A `_NNN` candidate never equals the bare target. -/
theorem candidatePath_ne_target (t : FsPath) (i : Nat) :
    candidatePath t i ≠ t := by
  intro h
  have hs : t.stem ++ "_" ++ pad3 i = t.stem := congrArg FsPath.stem h
  have hl := congrArg String.length hs
  simp only [String.length_append] at hl
  have : ("_" : String).length = 1 := rfl
  omega

/-- Distinct counters in the loop's range give distinct candidates. -/
theorem candidatePath_inj (t : FsPath) (i j : Nat) (hi : i < 10000)
    (hj : j < 10000) (h : candidatePath t i = candidatePath t j) : i = j := by
  have hs : t.stem ++ "_" ++ pad3 i = t.stem ++ "_" ++ pad3 j :=
    congrArg FsPath.stem h
  have hd := congrArg String.data hs
  simp only [String.data_append, List.append_assoc] at hd
  have hdata : (pad3 i).data = (pad3 j).data :=
    List.append_cancel_left (List.append_cancel_left hd)
  exact pad3_inj i j hi hj (String.ext hdata)

/-- When every candidate in the remaining range exists, the loop runs
out of fuel and raises. -/
theorem findFree_exhausted (fs : Fs) (t : FsPath) :
    ∀ fuel counter,
      (∀ i, counter ≤ i → i < counter + fuel → fs (candidatePath t i) = true) →
      findFree fs t fuel counter = Except.error "Too many duplicates" := by
  intro fuel
  induction fuel with
  | zero => intro counter _; rfl
  | succ k ih =>
      intro counter h
      have hc : fs (candidatePath t counter) = true :=
        h counter (Nat.le_refl _) (by omega)
      simp only [findFree, hc, if_true]
      exact ih (counter + 1) (fun i hi1 hi2 => h i (by omega) (by omega))

/-- The loop returns the first free candidate. -/
theorem findFree_finds (fs : Fs) (t : FsPath) (N : Nat) :
    ∀ fuel counter, counter ≤ N → N < counter + fuel →
      (∀ i, counter ≤ i → i < N → fs (candidatePath t i) = true) →
      fs (candidatePath t N) = false →
      findFree fs t fuel counter = Except.ok (candidatePath t N) := by
  intro fuel
  induction fuel with
  | zero => intro counter h1 h2 _ _; omega
  | succ k ih =>
      intro counter h1 h2 h3 h4
      rcases Nat.lt_or_ge counter N with hlt | hge
      · have hc : fs (candidatePath t counter) = true := h3 counter (Nat.le_refl _) hlt
        simp only [findFree, hc, if_true]
        exact ih (counter + 1) (by omega) (by omega)
          (fun i hi1 hi2 => h3 i (by omega) hi2) h4
      · have hcn : counter = N := by omega
        subst hcn
        simp only [findFree, h4]
        rfl

/-- Membership in the crowded scene of the round-trip property. -/
theorem crowdedFs_eq_true_iff (t : FsPath) (n : Nat) (p : FsPath) :
    crowdedFs t n p = true ↔
      p = t ∨ ∃ i, i < n ∧ 1 ≤ i ∧ p = candidatePath t i := by
  simp [crowdedFs, List.any_eq_true, List.mem_range, Bool.or_eq_true,
    Bool.and_eq_true, beq_iff_eq, decide_eq_true_iff]

/-- C8 counterexample: with the target and all 9999 candidates
`f_001 … f_9999` occupied (N = 10000), `resolve_duplicate_name` raises
`RuntimeError` instead of returning the next candidate name, refuting
the claim's unbounded "for every N". -/
theorem c8_counterexample :
    resolveDuplicateName (crowdedFs ⟨"dest", "f", ".jpg"⟩ 10000)
        ⟨"dest", "f", ".jpg"⟩ = Except.error "Too many duplicates" ∧
    resolveDuplicateName (crowdedFs ⟨"dest", "f", ".jpg"⟩ 10000)
        ⟨"dest", "f", ".jpg"⟩ ≠
      Except.ok (candidatePath ⟨"dest", "f", ".jpg"⟩ 10000) := by
  have ht : crowdedFs ⟨"dest", "f", ".jpg"⟩ 10000 ⟨"dest", "f", ".jpg"⟩ = true := by
    rw [crowdedFs_eq_true_iff]
    exact Or.inl rfl
  have he : resolveDuplicateName (crowdedFs ⟨"dest", "f", ".jpg"⟩ 10000)
      ⟨"dest", "f", ".jpg"⟩ = Except.error "Too many duplicates" := by
    unfold resolveDuplicateName
    rw [ht]
    simp only [if_true]
    apply findFree_exhausted
    intro i hi1 hi2
    rw [crowdedFs_eq_true_iff]
    exact Or.inr ⟨i, by omega, hi1, rfl⟩
  exact ⟨he, by rw [he]; simp⟩

/-- C8 amended: for every `1 ≤ N ≤ 9999` and every target `f`, if
exactly the `N` paths `f, f_001, …, f_(N-1 padded)` exist, collision
resolution on `f` returns the `N`-th candidate; at `N = 10000` the
attempt bound of `range(1, 10000)` is exhausted instead (see the
counterexample). -/
theorem c8_collision_round_trip (t : FsPath) (N : Nat) (h1 : 1 ≤ N)
    (h2 : N ≤ 9999) :
    resolveDuplicateName (crowdedFs t N) t =
      Except.ok (candidatePath t N) := by
  have ht : crowdedFs t N t = true := by
    rw [crowdedFs_eq_true_iff]
    exact Or.inl rfl
  unfold resolveDuplicateName
  rw [ht]
  simp only [if_true]
  apply findFree_finds
  · omega
  · omega
  · intro i hi1 hi2
    rw [crowdedFs_eq_true_iff]
    exact Or.inr ⟨i, hi2, hi1, rfl⟩
  · rw [Bool.eq_false_iff]
    intro hcontra
    rw [crowdedFs_eq_true_iff] at hcontra
    rcases hcontra with hteq | ⟨i, hi1, hi2, heq⟩
    · exact candidatePath_ne_target t N hteq
    · have := candidatePath_inj t N i (by omega) (by omega) heq
      omega

/-- Witness for C8 at `N = 3`. -/
theorem c8_collision_round_trip_witness :
    resolveDuplicateName (crowdedFs ⟨"d", "f", ".jpg"⟩ 3) ⟨"d", "f", ".jpg"⟩ =
      Except.ok (candidatePath ⟨"d", "f", ".jpg"⟩ 3) :=
  c8_collision_round_trip ⟨"d", "f", ".jpg"⟩ 3 (by omega) (by omega)

/-! ### Transfer engine helper lemmas (C3, C4, C6) -/

/-- `_transfer` appends one trace pair and touches nothing but the
filesystem and the trace. -/
theorem transfer_fields (cfg : MConfig) (s d : FsPath) (st : MoverState) :
    (transfer cfg s d st).trace = st.trace ++ [(s, d)] ∧
    (transfer cfg s d st).records = st.records ∧
    (transfer cfg s d st).stored = st.stored ∧
    (transfer cfg s d st).discarded = st.discarded ∧
    (transfer cfg s d st).skipped = st.skipped ∧
    (transfer cfg s d st).noDate = st.noDate ∧
    (transfer cfg s d st).errors = st.errors := by
  unfold transfer
  split_ifs <;> simp

/-- In dry-run mode `_transfer` leaves the filesystem untouched. -/
theorem transfer_fs_dry (cfg : MConfig) (s d : FsPath) (st : MoverState)
    (h : cfg.dryRun = true) : (transfer cfg s d st).fs = st.fs := by
  simp [transfer, h]

/-- The sidecar loop touches nothing but the filesystem and trace. -/
theorem sidecarLoop_fields (cfg : MConfig) (par : String) :
    ∀ (scs : List FsPath) (st : MoverState) (acc : List (FsPath × FsPath)),
    ((sidecarLoop cfg par scs st acc).1).records = st.records ∧
    ((sidecarLoop cfg par scs st acc).1).stored = st.stored ∧
    ((sidecarLoop cfg par scs st acc).1).discarded = st.discarded ∧
    ((sidecarLoop cfg par scs st acc).1).skipped = st.skipped ∧
    ((sidecarLoop cfg par scs st acc).1).noDate = st.noDate ∧
    ((sidecarLoop cfg par scs st acc).1).errors = st.errors := by
  intro scs
  induction scs with
  | nil => intro st acc; exact ⟨rfl, rfl, rfl, rfl, rfl, rfl⟩
  | cons sc rest ih =>
      intro st acc
      unfold sidecarLoop
      rcases hres : resolveDuplicateName st.fs ⟨par, sc.stem, sc.suffix⟩ with e | scDest
      · exact ⟨rfl, rfl, rfl, rfl, rfl, rfl⟩
      · obtain ⟨t1, t2, t3, t4, t5, t6, t7⟩ := transfer_fields cfg sc scDest st
        obtain ⟨i1, i2, i3, i4, i5, i6⟩ :=
          ih (transfer cfg sc scDest st) (acc ++ [(sc, scDest)])
        exact ⟨i1.trans t2, i2.trans t3, i3.trans t4, i4.trans t5,
          i5.trans t6, i6.trans t7⟩

/-- In dry-run mode the sidecar loop leaves the filesystem untouched. -/
theorem sidecarLoop_fs_dry (cfg : MConfig) (par : String)
    (h : cfg.dryRun = true) :
    ∀ (scs : List FsPath) (st : MoverState) (acc : List (FsPath × FsPath)),
    ((sidecarLoop cfg par scs st acc).1).fs = st.fs := by
  intro scs
  induction scs with
  | nil => intro st acc; rfl
  | cons sc rest ih =>
      intro st acc
      unfold sidecarLoop
      rcases hres : resolveDuplicateName st.fs ⟨par, sc.stem, sc.suffix⟩ with e | scDest
      · rfl
      · exact (ih (transfer cfg sc scDest st) (acc ++ [(sc, scDest)])).trans
          (transfer_fs_dry cfg sc scDest st h)

/-- A successful sidecar loop appends to the trace exactly the pairs it
appends to the accumulated sidecar records, in the same order. -/
theorem sidecarLoop_ok (cfg : MConfig) (par : String) :
    ∀ (scs : List FsPath) (st : MoverState) (acc : List (FsPath × FsPath))
      (st2 : MoverState) (recs : List (FsPath × FsPath)),
    sidecarLoop cfg par scs st acc = (st2, recs, true) →
    ∃ ps, recs = acc ++ ps ∧ st2.trace = st.trace ++ ps := by
  intro scs
  induction scs with
  | nil =>
      intro st acc st2 recs h
      obtain ⟨h1, h2, -⟩ : st = st2 ∧ acc = recs ∧ True := by
        simpa [sidecarLoop, Prod.ext_iff] using h
      subst h1
      subst h2
      exact ⟨[], by simp, by simp⟩
  | cons sc rest ih =>
      intro st acc st2 recs h
      unfold sidecarLoop at h
      rcases hres : resolveDuplicateName st.fs ⟨par, sc.stem, sc.suffix⟩ with e | scDest <;>
        rw [hres] at h
      · simp [Prod.ext_iff] at h
      · obtain ⟨ps', hrecs, htrace⟩ :=
          ih (transfer cfg sc scDest st) (acc ++ [(sc, scDest)]) st2 recs h
        refine ⟨(sc, scDest) :: ps', by rw [hrecs]; simp, ?_⟩
        rw [htrace, (transfer_fields cfg sc scDest st).1]
        simp

/-- `_execute_one` never touches the error counter (errors are counted
by the caller's exception handler). -/
theorem execOne_errors (cfg : MConfig) (fa : MAction) (st : MoverState) :
    ((execOne cfg fa st).1).errors = st.errors := by
  cases ha : fa.action <;> simp only [execOne, ha]
  case store =>
    rcases hres : resolveDuplicateName st.fs fa.destinationPath with e | dest
    · rfl
    · rcases hsl : sidecarLoop cfg dest.parent fa.sidecars
          (transfer cfg fa.src dest st) [] with ⟨st2, recs, flag⟩
      have h2 : st2.errors = st.errors := by
        have hp := (sidecarLoop_fields cfg dest.parent fa.sidecars
          (transfer cfg fa.src dest st) []).2.2.2.2.2
        rw [hsl] at hp
        exact hp.trans (transfer_fields cfg fa.src dest st).2.2.2.2.2.2
      cases flag <;> simp [hsl, h2]
  case noDate =>
    rcases hres : resolveDuplicateName st.fs fa.destinationPath with e | dest
    · rfl
    · rcases hsl : sidecarLoop cfg dest.parent fa.sidecars
          (transfer cfg fa.src dest st) [] with ⟨st2, recs, flag⟩
      have h2 : st2.errors = st.errors := by
        have hp := (sidecarLoop_fields cfg dest.parent fa.sidecars
          (transfer cfg fa.src dest st) []).2.2.2.2.2
        rw [hsl] at hp
        exact hp.trans (transfer_fields cfg fa.src dest st).2.2.2.2.2.2
      cases flag <;> simp [hsl, h2]
  case discardSource =>
    rcases hres : resolveDuplicateName st.fs fa.destinationPath with e | dest
    · rfl
    · rcases hsl : sidecarLoop cfg cfg.discard fa.sidecars
          (transfer cfg fa.src dest st) [] with ⟨st2, recs, flag⟩
      have h2 : st2.errors = st.errors := by
        have hp := (sidecarLoop_fields cfg cfg.discard fa.sidecars
          (transfer cfg fa.src dest st) []).2.2.2.2.2
        rw [hsl] at hp
        exact hp.trans (transfer_fields cfg fa.src dest st).2.2.2.2.2.2
      cases flag <;> simp [hsl, h2]

/-- A successfully executed action bumps exactly the counter of its
kind and, for transfer kinds, appends exactly one manifest record. -/
theorem execOne_ok_counts (cfg : MConfig) (fa : MAction) (st st2 : MoverState)
    (h : execOne cfg fa st = (st2, true)) :
    countersOf st2 = countersOf st + kindDelta fa.action := by
  cases ha : fa.action <;> simp only [execOne, ha] at h
  case skip =>
    have hst : _ = st2 := congrArg Prod.fst h
    subst hst
    simp [countersOf, kindDelta, Prod.mk_add_mk]
  case discardExisting =>
    have hst : _ = st2 := congrArg Prod.fst h
    subst hst
    simp [countersOf, kindDelta, Prod.mk_add_mk]
  case store =>
    rcases hres : resolveDuplicateName st.fs fa.destinationPath with e | dest <;>
      rw [hres] at h
    · simp [Prod.ext_iff] at h
    · rcases hsl : sidecarLoop cfg dest.parent fa.sidecars
          (transfer cfg fa.src dest st) [] with ⟨stl, recs, flag⟩
      simp only [hsl] at h
      have hf := (sidecarLoop_fields cfg dest.parent fa.sidecars
        (transfer cfg fa.src dest st) [])
      rw [hsl] at hf
      simp only [Prod.fst] at hf
      have ht := transfer_fields cfg fa.src dest st
      cases flag
      · simp at h
      · simp at h
        subst h
        simp [countersOf, kindDelta, Prod.mk_add_mk, hf.1, hf.2.1, hf.2.2.1,
          hf.2.2.2.1, hf.2.2.2.2.1, ht.2.1, ht.2.2.1, ht.2.2.2.1,
          ht.2.2.2.2.1, ht.2.2.2.2.2.1]
        try rfl
  case noDate =>
    rcases hres : resolveDuplicateName st.fs fa.destinationPath with e | dest <;>
      rw [hres] at h
    · simp [Prod.ext_iff] at h
    · rcases hsl : sidecarLoop cfg dest.parent fa.sidecars
          (transfer cfg fa.src dest st) [] with ⟨stl, recs, flag⟩
      simp only [hsl] at h
      have hf := (sidecarLoop_fields cfg dest.parent fa.sidecars
        (transfer cfg fa.src dest st) [])
      rw [hsl] at hf
      simp only [Prod.fst] at hf
      have ht := transfer_fields cfg fa.src dest st
      cases flag
      · simp at h
      · simp at h
        subst h
        simp [countersOf, kindDelta, Prod.mk_add_mk, hf.1, hf.2.1, hf.2.2.1,
          hf.2.2.2.1, hf.2.2.2.2.1, ht.2.1, ht.2.2.1, ht.2.2.2.1,
          ht.2.2.2.2.1, ht.2.2.2.2.2.1]
        try rfl
  case discardSource =>
    rcases hres : resolveDuplicateName st.fs fa.destinationPath with e | dest <;>
      rw [hres] at h
    · simp [Prod.ext_iff] at h
    · rcases hsl : sidecarLoop cfg cfg.discard fa.sidecars
          (transfer cfg fa.src dest st) [] with ⟨stl, recs, flag⟩
      simp only [hsl] at h
      have hf := (sidecarLoop_fields cfg cfg.discard fa.sidecars
        (transfer cfg fa.src dest st) [])
      rw [hsl] at hf
      simp only [Prod.fst] at hf
      have ht := transfer_fields cfg fa.src dest st
      cases flag
      · simp at h
      · simp at h
        subst h
        simp [countersOf, kindDelta, Prod.mk_add_mk, hf.1, hf.2.1, hf.2.2.1,
          hf.2.2.2.1, hf.2.2.2.2.1, ht.2.1, ht.2.2.1, ht.2.2.2.1,
          ht.2.2.2.2.1, ht.2.2.2.2.2.1]
        try rfl

theorem execOne_fail_counts (cfg : MConfig) (fa : MAction)
    (st st2 : MoverState) (h : execOne cfg fa st = (st2, false)) :
    countersOf st2 = countersOf st := by
  cases ha : fa.action <;> simp only [execOne, ha] at h
  case skip => simp [Prod.ext_iff] at h
  case discardExisting => simp [Prod.ext_iff] at h
  case store =>
    rcases hres : resolveDuplicateName st.fs fa.destinationPath with e | dest <;>
      rw [hres] at h
    · have hst : _ = st2 := congrArg Prod.fst h
      subst hst
      rfl
    · rcases hsl : sidecarLoop cfg dest.parent fa.sidecars
          (transfer cfg fa.src dest st) [] with ⟨stl, recs, flag⟩
      simp only [hsl] at h
      have hf := (sidecarLoop_fields cfg dest.parent fa.sidecars
        (transfer cfg fa.src dest st) [])
      rw [hsl] at hf
      simp only [Prod.fst] at hf
      have ht := transfer_fields cfg fa.src dest st
      cases flag
      · simp at h
        subst h
        simp [countersOf, hf.1, hf.2.1, hf.2.2.1, hf.2.2.2.1, hf.2.2.2.2.1,
          ht.2.1, ht.2.2.1, ht.2.2.2.1, ht.2.2.2.2.1, ht.2.2.2.2.2.1]
      · simp at h
  case noDate =>
    rcases hres : resolveDuplicateName st.fs fa.destinationPath with e | dest <;>
      rw [hres] at h
    · have hst : _ = st2 := congrArg Prod.fst h
      subst hst
      rfl
    · rcases hsl : sidecarLoop cfg dest.parent fa.sidecars
          (transfer cfg fa.src dest st) [] with ⟨stl, recs, flag⟩
      simp only [hsl] at h
      have hf := (sidecarLoop_fields cfg dest.parent fa.sidecars
        (transfer cfg fa.src dest st) [])
      rw [hsl] at hf
      simp only [Prod.fst] at hf
      have ht := transfer_fields cfg fa.src dest st
      cases flag
      · simp at h
        subst h
        simp [countersOf, hf.1, hf.2.1, hf.2.2.1, hf.2.2.2.1, hf.2.2.2.2.1,
          ht.2.1, ht.2.2.1, ht.2.2.2.1, ht.2.2.2.2.1, ht.2.2.2.2.2.1]
      · simp at h
  case discardSource =>
    rcases hres : resolveDuplicateName st.fs fa.destinationPath with e | dest <;>
      rw [hres] at h
    · have hst : _ = st2 := congrArg Prod.fst h
      subst hst
      rfl
    · rcases hsl : sidecarLoop cfg cfg.discard fa.sidecars
          (transfer cfg fa.src dest st) [] with ⟨stl, recs, flag⟩
      simp only [hsl] at h
      have hf := (sidecarLoop_fields cfg cfg.discard fa.sidecars
        (transfer cfg fa.src dest st) [])
      rw [hsl] at hf
      simp only [Prod.fst] at hf
      have ht := transfer_fields cfg fa.src dest st
      cases flag
      · simp at h
        subst h
        simp [countersOf, hf.1, hf.2.1, hf.2.2.1, hf.2.2.2.1, hf.2.2.2.2.1,
          ht.2.1, ht.2.2.1, ht.2.2.2.1, ht.2.2.2.2.1, ht.2.2.2.2.2.1]
      · simp at h

/-- In dry-run mode `_execute_one` leaves the filesystem untouched. -/
theorem execOne_fs_dry (cfg : MConfig) (fa : MAction) (st : MoverState)
    (h : cfg.dryRun = true) : ((execOne cfg fa st).1).fs = st.fs := by
  cases ha : fa.action <;> simp only [execOne, ha]
  case store =>
    rcases hres : resolveDuplicateName st.fs fa.destinationPath with e | dest
    · rfl
    · rcases hsl : sidecarLoop cfg dest.parent fa.sidecars
          (transfer cfg fa.src dest st) [] with ⟨stl, recs, flag⟩
      have hfs : stl.fs = st.fs := by
        have hp := sidecarLoop_fs_dry cfg dest.parent h fa.sidecars
          (transfer cfg fa.src dest st) []
        rw [hsl] at hp
        exact hp.trans (transfer_fs_dry cfg fa.src dest st h)
      cases flag <;> simp [hsl, hfs]
  case noDate =>
    rcases hres : resolveDuplicateName st.fs fa.destinationPath with e | dest
    · rfl
    · rcases hsl : sidecarLoop cfg dest.parent fa.sidecars
          (transfer cfg fa.src dest st) [] with ⟨stl, recs, flag⟩
      have hfs : stl.fs = st.fs := by
        have hp := sidecarLoop_fs_dry cfg dest.parent h fa.sidecars
          (transfer cfg fa.src dest st) []
        rw [hsl] at hp
        exact hp.trans (transfer_fs_dry cfg fa.src dest st h)
      cases flag <;> simp [hsl, hfs]
  case discardSource =>
    rcases hres : resolveDuplicateName st.fs fa.destinationPath with e | dest
    · rfl
    · rcases hsl : sidecarLoop cfg cfg.discard fa.sidecars
          (transfer cfg fa.src dest st) [] with ⟨stl, recs, flag⟩
      have hfs : stl.fs = st.fs := by
        have hp := sidecarLoop_fs_dry cfg cfg.discard h fa.sidecars
          (transfer cfg fa.src dest st) []
        rw [hsl] at hp
        exact hp.trans (transfer_fs_dry cfg fa.src dest st h)
      cases flag <;> simp [hsl, hfs]

/-- Unfolding of `Mover.execute` over a first action that succeeds. -/
theorem moverExecute_cons_ok (cfg : MConfig) (fa : MAction)
    (rest : List MAction) (st st2 : MoverState)
    (h : execOne cfg fa st = (st2, true)) :
    moverExecute cfg (fa :: rest) st = moverExecute cfg rest st2 := by
  simp only [moverExecute, List.foldl_cons, h]

/-- Unfolding of `Mover.execute` over a first action that raises: the
caught exception becomes an error-counter increment and the remaining
actions continue. -/
theorem moverExecute_cons_err (cfg : MConfig) (fa : MAction)
    (rest : List MAction) (st st2 : MoverState)
    (h : execOne cfg fa st = (st2, false)) :
    moverExecute cfg (fa :: rest) st =
      moverExecute cfg rest { st2 with errors := st2.errors + 1 } := by
  simp only [moverExecute, List.foldl_cons, h]

/-- The error counter never decreases over a run. -/
theorem moverExecute_errors_mono (cfg : MConfig) :
    ∀ (actions : List MAction) (st : MoverState),
    st.errors ≤ (moverExecute cfg actions st).errors := by
  intro actions
  induction actions with
  | nil => intro st; exact Nat.le_refl _
  | cons fa rest ih =>
      intro st
      rcases hex : execOne cfg fa st with ⟨st2, flag⟩
      have he2 : st2.errors = st.errors := by
        have hp := execOne_errors cfg fa st
        rw [hex] at hp
        exact hp
      cases flag
      · rw [moverExecute_cons_err cfg fa rest st st2 hex]
        have hrest := ih { st2 with errors := st2.errors + 1 }
        have h3 : ({ st2 with errors := st2.errors + 1 } : MoverState).errors =
            st2.errors + 1 := rfl
        omega
      · rw [moverExecute_cons_ok cfg fa rest st st2 hex]
        have hrest := ih st2
        omega

/-- A run that ends with its error counter unchanged performed every
action successfully, so the counters advance by exactly the kind count
of the action list. -/
theorem moverExecute_counts (cfg : MConfig) :
    ∀ (actions : List MAction) (st : MoverState),
    (moverExecute cfg actions st).errors = st.errors →
    countersOf (moverExecute cfg actions st) = countersOf st + kindDeltas actions := by
  intro actions
  induction actions with
  | nil =>
      intro st _
      simp [moverExecute, kindDeltas, countersOf, Prod.mk_add_mk]
  | cons fa rest ih =>
      intro st h
      rcases hex : execOne cfg fa st with ⟨st2, flag⟩
      have he2 : st2.errors = st.errors := by
        have hp := execOne_errors cfg fa st
        rw [hex] at hp
        exact hp
      cases flag
      · rw [moverExecute_cons_err cfg fa rest st st2 hex] at h
        exfalso
        have hmono := moverExecute_errors_mono cfg rest
          { st2 with errors := st2.errors + 1 }
        have h3 : ({ st2 with errors := st2.errors + 1 } : MoverState).errors =
            st2.errors + 1 := rfl
        omega
      · rw [moverExecute_cons_ok cfg fa rest st st2 hex] at h ⊢
        have hrec := ih st2 (by omega)
        rw [hrec, execOne_ok_counts cfg fa st st2 hex]
        have hcons : kindDeltas (fa :: rest) = kindDelta fa.action + kindDeltas rest := rfl
        rw [hcons, add_assoc]

/-- In dry-run mode a whole run leaves the filesystem untouched. -/
theorem moverExecute_fs_dry (cfg : MConfig) (h : cfg.dryRun = true) :
    ∀ (actions : List MAction) (st : MoverState),
    (moverExecute cfg actions st).fs = st.fs := by
  intro actions
  induction actions with
  | nil => intro st; rfl
  | cons fa rest ih =>
      intro st
      rcases hex : execOne cfg fa st with ⟨st2, flag⟩
      have hfs : st2.fs = st.fs := by
        have hp := execOne_fs_dry cfg fa st h
        rw [hex] at hp
        exact hp
      cases flag
      · rw [moverExecute_cons_err cfg fa rest st st2 hex]
        exact (ih { st2 with errors := st2.errors + 1 }).trans hfs
      · rw [moverExecute_cons_ok cfg fa rest st st2 hex]
        exact (ih st2).trans hfs

/-- The record component of the kind count is the number of store,
discard and no-date actions. -/
theorem kindDeltas_records (actions : List MAction) :
    (kindDeltas actions).2.2.2.2 =
      countKind Action.store actions + countKind Action.discardSource actions +
        countKind Action.noDate actions := by
  induction actions with
  | nil => rfl
  | cons fa rest ih =>
      have hcons : kindDeltas (fa :: rest) = kindDelta fa.action + kindDeltas rest := rfl
      rw [hcons]
      simp only [Prod.snd_add]
      rw [ih]
      cases ha : fa.action <;>
        simp [countKind, kindDelta, ha, List.filter_cons] <;> omega

/-- On a filesystem where every path exists, collision resolution
exhausts all 9999 attempts and raises. -/
theorem resolveDuplicateName_fullFs (t : FsPath) :
    resolveDuplicateName fullFs t = Except.error "Too many duplicates" := by
  unfold resolveDuplicateName
  rw [if_pos]
  · exact findFree_exhausted fullFs t 9999 1 (fun i h1 h2 => rfl)
  · rfl

/-- C4 counterexample: on a destination where the store target and all
9999 `_NNN` candidates exist, the run does not abort — the exhaustion is
caught per file (error counter 1) and the following skip action still
executes (skip counter 1), refuting the claim's "never converted into a
per-file error counter while the remaining actions continue". -/
theorem c4_counterexample :
    moverExecute ⟨false, false, "discard"⟩
        [⟨⟨"src", "a", ".jpg"⟩, 10, Action.store, ⟨"dest", "a", ".jpg"⟩, []⟩,
         ⟨⟨"src", "b", ".jpg"⟩, 11, Action.skip, ⟨"src", "b", ".jpg"⟩, []⟩]
        (initState fullFs) =
      { initState fullFs with errors := 1, skipped := 1 } := by
  have h1 : execOne ⟨false, false, "discard"⟩
      ⟨⟨"src", "a", ".jpg"⟩, 10, Action.store, ⟨"dest", "a", ".jpg"⟩, []⟩
      (initState fullFs) = (initState fullFs, false) := by
    simp [execOne, initState, resolveDuplicateName_fullFs]
  rw [moverExecute_cons_err _ _ _ _ _ h1]
  rfl

/-- C4 amended: exhausting the bounded attempt count raises a
`RuntimeError` that `Mover.execute`'s per-file exception handler
catches like any other per-file failure: the error counter increments
(no skip is recorded) and the remaining actions continue; the run does
not abort. -/
theorem c4_exhaustion_counted_per_file :
    (∀ (cfg : MConfig) (fa : MAction) (st : MoverState),
      fa.action = Action.store → st.fs = fullFs →
      execOne cfg fa st = (st, false)) ∧
    (∀ (cfg : MConfig) (fa : MAction) (rest : List MAction) (st st2 : MoverState),
      execOne cfg fa st = (st2, false) →
      moverExecute cfg (fa :: rest) st =
        moverExecute cfg rest { st2 with errors := st2.errors + 1 }) := by
  constructor
  · intro cfg fa st ha hfs
    have hres : resolveDuplicateName st.fs fa.destinationPath =
        Except.error "Too many duplicates" := by
      rw [hfs]
      exact resolveDuplicateName_fullFs fa.destinationPath
    simp [execOne, ha, hres]
  · exact fun cfg fa rest st st2 h => moverExecute_cons_err cfg fa rest st st2 h

/-- Witness for C4 at a concrete exhausted store action. -/
theorem c4_exhaustion_counted_per_file_witness :
    execOne ⟨false, false, "discard"⟩
        ⟨⟨"src", "a", ".jpg"⟩, 10, Action.store, ⟨"dest", "a", ".jpg"⟩, []⟩
        (initState fullFs) = (initState fullFs, false) :=
  c4_exhaustion_counted_per_file.1 ⟨false, false, "discard"⟩
    ⟨⟨"src", "a", ".jpg"⟩, 10, Action.store, ⟨"dest", "a", ".jpg"⟩, []⟩
    (initState fullFs) rfl rfl

/-- C3 counterexample: a dry run over one store action appends one
OperationRecord to the manifest writer, refuting the claim's
"appends no OperationRecord". -/
theorem c3_counterexample :
    (moverExecute ⟨false, true, "discard"⟩
        [⟨⟨"src", "photo", ".jpg"⟩, 52, Action.store,
          ⟨"dest/2024/01", "photo", ".jpg"⟩, []⟩]
        (initState (fun _ => false))).records.length = 1 := by
  rfl

/-- C3 amended: in dry-run mode executing the planned actions performs
zero filesystem mutations, and the summary counters (stored, discarded,
skipped, no-date — and the record count) equal those of a non-dry-run
execution over the same input whenever neither execution hits a
per-file error; an OperationRecord is appended for every executed
store/no-date/discard action, exactly as in a real run. -/
theorem c3_dry_run_frame (cfg : MConfig) (actions : List MAction) (fs0 : Fs) :
    (moverExecute ⟨cfg.modeMove, true, cfg.discard⟩ actions (initState fs0)).fs = fs0 ∧
    ((moverExecute ⟨cfg.modeMove, true, cfg.discard⟩ actions (initState fs0)).errors = 0 →
      (moverExecute ⟨cfg.modeMove, false, cfg.discard⟩ actions (initState fs0)).errors = 0 →
      countersOf (moverExecute ⟨cfg.modeMove, true, cfg.discard⟩ actions (initState fs0)) =
        countersOf (moverExecute ⟨cfg.modeMove, false, cfg.discard⟩ actions (initState fs0))) ∧
    ((moverExecute ⟨cfg.modeMove, true, cfg.discard⟩ actions (initState fs0)).errors = 0 →
      (moverExecute ⟨cfg.modeMove, true, cfg.discard⟩ actions (initState fs0)).records.length =
        countKind Action.store actions + countKind Action.discardSource actions +
          countKind Action.noDate actions) := by
  refine ⟨moverExecute_fs_dry ⟨cfg.modeMove, true, cfg.discard⟩ rfl actions (initState fs0),
    ?_, ?_⟩
  · intro hd hr
    have h1 := moverExecute_counts ⟨cfg.modeMove, true, cfg.discard⟩ actions
      (initState fs0) (by rw [hd]; rfl)
    have h2 := moverExecute_counts ⟨cfg.modeMove, false, cfg.discard⟩ actions
      (initState fs0) (by rw [hr]; rfl)
    rw [h1, h2]
  · intro hd
    have h1 := moverExecute_counts ⟨cfg.modeMove, true, cfg.discard⟩ actions
      (initState fs0) (by rw [hd]; rfl)
    have h3 := congrArg (fun p => p.2.2.2.2) h1
    simp only [Prod.snd_add] at h3
    rw [kindDeltas_records] at h3
    simpa [countersOf, initState] using h3

/-- Witness for C3 at a concrete one-action input. -/
theorem c3_dry_run_frame_witness :
    (moverExecute ⟨false, true, "discard"⟩
        [⟨⟨"src", "photo", ".jpg"⟩, 52, Action.store,
          ⟨"dest/2024/01", "photo", ".jpg"⟩, []⟩]
        (initState (fun _ => false))).fs = (fun _ => false) ∧
    countersOf (moverExecute ⟨false, true, "discard"⟩
        [⟨⟨"src", "photo", ".jpg"⟩, 52, Action.store,
          ⟨"dest/2024/01", "photo", ".jpg"⟩, []⟩]
        (initState (fun _ => false))) =
      countersOf (moverExecute ⟨false, false, "discard"⟩
        [⟨⟨"src", "photo", ".jpg"⟩, 52, Action.store,
          ⟨"dest/2024/01", "photo", ".jpg"⟩, []⟩]
        (initState (fun _ => false))) :=
  ⟨(c3_dry_run_frame ⟨false, true, "discard"⟩
      [⟨⟨"src", "photo", ".jpg"⟩, 52, Action.store,
        ⟨"dest/2024/01", "photo", ".jpg"⟩, []⟩] (fun _ => false)).1,
   (c3_dry_run_frame ⟨false, true, "discard"⟩
      [⟨⟨"src", "photo", ".jpg"⟩, 52, Action.store,
        ⟨"dest/2024/01", "photo", ".jpg"⟩, []⟩] (fun _ => false)).2.1
     (by rfl) (by rfl)⟩

/-! ### Undo engine (C2, C5, C6, C9, C10) -/

/-- A fold of the undo loop over entries whose destinations are all
absent succeeds entry by entry without changing the filesystem. -/
theorem undoFold_all_gone (mc dr : Bool) :
    ∀ (es : List UndoEntry) (fs : FsU) (u er : Nat),
    (∀ e ∈ es, fs e.destination = none) →
    es.foldl (undoStep mc dr) (fs, u, er) = (fs, u + es.length, er) := by
  intro es
  induction es with
  | nil => intro fs u er _; simp
  | cons e rest ih =>
      intro fs u er h
      have he : fs e.destination = none := h e (by simp)
      have hstep : undoStep mc dr (fs, u, er) e = (fs, u + 1, er) := by
        simp [undoStep, undoOne, he]
      rw [List.foldl_cons, hstep,
        ih fs (u + 1) er (fun e2 h2 => h e2 (by simp [h2]))]
      simp only [List.length_cons]
      have harith : u + 1 + rest.length = u + (rest.length + 1) := by omega
      rw [harith]

/-- C2: when every recorded destination is already gone (as after a
successful undo), every per-file undo reports success, the filesystem
is unchanged, the error count is zero and the process exits
successfully. -/
theorem c2_undo_idempotent (ver mode : String) (ops : List UndoOp)
    (fs : FsU) (dr : Bool)
    (h : ∀ e ∈ undoEntries ops, fs e.destination = none) :
    (∀ (mc dr2 : Bool) (e : UndoEntry), fs e.destination = none →
      undoOne mc dr2 e fs = (fs, true)) ∧
    undoFull dr ⟨some ver, some ops, some ⟨some mode, some false⟩⟩ fs =
      Except.ok (fs, (undoEntries ops).length, 0) ∧
    undoExitOk dr ⟨some ver, some ops, some ⟨some mode, some false⟩⟩ fs = true := by
  have hfull : undoFull dr ⟨some ver, some ops, some ⟨some mode, some false⟩⟩ fs =
      Except.ok (fs, (undoEntries ops).length, 0) := by
    unfold undoFull loadManifest
    by_cases hops : ops = []
    · subst hops
      simp [undoEntries]
    · simp only [Option.getD_some]
      rw [if_neg (by simp), if_neg hops]
      unfold undoRun
      rw [undoFold_all_gone (decide (mode = "copy")) dr (undoEntries ops) fs 0 0 h]
      simp
  exact ⟨fun mc dr2 e he => by simp [undoOne, he], hfull,
    by simp [undoExitOk, hfull]⟩

/-- Witness for C2: a one-record copy-mode manifest whose destination
is absent. -/
theorem c2_undo_idempotent_witness :
    undoFull false ⟨some "1.0",
        some [⟨"src/a.jpg", "dest/2024/01/a.jpg", some 52, []⟩],
        some ⟨some "copy", some false⟩⟩ (fun _ => none) =
      Except.ok ((fun _ => none),
        (undoEntries [⟨"src/a.jpg", "dest/2024/01/a.jpg", some 52, []⟩]).length, 0) :=
  (c2_undo_idempotent "1.0" "copy" [⟨"src/a.jpg", "dest/2024/01/a.jpg", some 52, []⟩]
    (fun _ => none) false (fun _ _ => rfl)).2.1

/-- C5: a primary record whose recorded size differs from the
destination's current size is refused — the filesystem is unchanged and
the per-file undo reports failure; the fold counts each such failure in
the error counter; and the undo process exits with failure whenever its
error count is positive. -/
theorem c5_size_mismatch_refused :
    (∀ (mc dr : Bool) (src dest : String) (s cur : Nat) (fs : FsU),
      fs dest = some cur → cur ≠ s →
      undoOne mc dr ⟨src, dest, some s⟩ fs = (fs, false)) ∧
    (∀ (mc dr : Bool) (e : UndoEntry) (rest : List UndoEntry)
      (fs fs2 : FsU) (u er : Nat),
      undoOne mc dr e fs = (fs2, false) →
      (e :: rest).foldl (undoStep mc dr) (fs, u, er) =
        rest.foldl (undoStep mc dr) (fs2, u, er + 1)) ∧
    (∀ (dr : Bool) (m : RawManifest) (fs fs2 : FsU) (u er : Nat),
      undoFull dr m fs = Except.ok (fs2, u, er) → 0 < er →
      undoExitOk dr m fs = false) := by
  refine ⟨?_, ?_, ?_⟩
  · intro mc dr src dest s cur fs hdest hne
    simp [undoOne, hdest, hne]
  · intro mc dr e rest fs fs2 u er h
    rw [List.foldl_cons,
      show undoStep mc dr (fs, u, er) e = (fs2, u, er + 1) from by
        simp [undoStep, h]]
  · intro dr m fs fs2 u er h hpos
    simp [undoExitOk, h]
    omega

/-- Witness for C5: recorded size 52, current size 99. -/
theorem c5_size_mismatch_refused_witness :
    undoOne true false ⟨"src/x.jpg", "dest/x.jpg", some 52⟩
        (fun p => if p = "dest/x.jpg" then some 99 else none) =
      ((fun p => if p = "dest/x.jpg" then some 99 else none), false) :=
  c5_size_mismatch_refused.1 true false "src/x.jpg" "dest/x.jpg" 52 99
    (fun p => if p = "dest/x.jpg" then some 99 else none) (by simp) (by omega)

/-- C6: undo's processing order over a manifest is exactly the reverse
of the application order — records reversed, and within a record the
sidecars (reversed) before the primary; and the mover's transfer trace
for a successfully executed store action is indeed the primary first
followed by the recorded sidecar pairs in recorded order. -/
theorem c6_undo_reverse_order :
    (∀ ops : List UndoOp,
      undoEntries ops = (ops.flatMap applyEntriesOfRecord).reverse) ∧
    (∀ (cfg : MConfig) (fa : MAction) (st st2 : MoverState),
      fa.action = Action.store → execOne cfg fa st = (st2, true) →
      ∃ dest scRecs,
        st2.trace = st.trace ++ (fa.src, dest) :: scRecs ∧
        st2.records = st.records ++
          [⟨fa.action, fa.src, dest, fa.srcSize, scRecs⟩]) := by
  constructor
  · intro ops
    induction ops with
    | nil => rfl
    | cons op rest ih =>
        unfold undoEntries at ih ⊢
        unfold applyEntriesOfRecord
        simp only [List.reverse_cons, List.flatMap_append, List.flatMap_cons,
          List.flatMap_nil, List.append_nil, List.reverse_append]
        rw [ih]
        simp [List.reverse_cons, List.map_reverse, applyEntriesOfRecord]
        rfl
  · intro cfg fa st st2 ha h
    simp only [execOne, ha] at h
    rcases hres : resolveDuplicateName st.fs fa.destinationPath with _e | dest <;>
      rw [hres] at h
    · simp [Prod.ext_iff] at h
    · rcases hsl : sidecarLoop cfg dest.parent fa.sidecars
          (transfer cfg fa.src dest st) [] with ⟨stl, recs, flag⟩
      simp only [hsl] at h
      cases flag
      · simp at h
      · simp at h
        subst h
        obtain ⟨ps, hrecs, htrace⟩ := sidecarLoop_ok cfg dest.parent fa.sidecars
          (transfer cfg fa.src dest st) [] stl recs hsl
        have hrecs2 : recs = ps := by simpa using hrecs
        subst hrecs2
        have hfields := sidecarLoop_fields cfg dest.parent fa.sidecars
          (transfer cfg fa.src dest st) []
        rw [hsl] at hfields
        simp only [Prod.fst] at hfields
        have hrec0 : stl.records = st.records :=
          hfields.1.trans (transfer_fields cfg fa.src dest st).2.1
        refine ⟨dest, recs, ?_, ?_⟩ <;>
          simp [ha, htrace, (transfer_fields cfg fa.src dest st).1, hrec0]

/-- Witness for C6's mover half at a concrete sidecar-free store. -/
theorem c6_undo_reverse_order_witness :
    ∃ dest scRecs,
      ((execOne ⟨false, false, "discard"⟩
          ⟨⟨"src", "p", ".jpg"⟩, 7, Action.store, ⟨"dest", "p", ".jpg"⟩, []⟩
          (initState (fun _ => false))).1).trace =
        (initState (fun _ => false)).trace ++
          ((⟨"src", "p", ".jpg"⟩ : FsPath), dest) :: scRecs ∧
      ((execOne ⟨false, false, "discard"⟩
          ⟨⟨"src", "p", ".jpg"⟩, 7, Action.store, ⟨"dest", "p", ".jpg"⟩, []⟩
          (initState (fun _ => false))).1).records =
        (initState (fun _ => false)).records ++
          [(⟨Action.store, ⟨"src", "p", ".jpg"⟩, dest, 7, scRecs⟩ : OpRecord)] :=
  c6_undo_reverse_order.2 ⟨false, false, "discard"⟩
    ⟨⟨"src", "p", ".jpg"⟩, 7, Action.store, ⟨"dest", "p", ".jpg"⟩, []⟩
    (initState (fun _ => false)) _ rfl rfl

/-- C9: a manifest missing its schema-version marker, its operations
list, or `config.mode` makes undo fail fast with a configuration error
(`SystemExit`), producing no filesystem result. -/
theorem c9_validation_fail_fast (m : RawManifest) (fs : FsU) (dr : Bool)
    (h : m.schemaVersion = none ∨ m.operations = none ∨ m.config = none ∨
      ∃ c, m.config = some c ∧ c.mode = none) :
    ∃ msg, undoFull dr m fs = Except.error msg := by
  obtain ⟨sv, ops, cfg⟩ := m
  rcases h with h | h | h | ⟨c, hc, hm⟩
  · simp only at h
    subst h
    exact ⟨"manifest missing schema_version field", rfl⟩
  · simp only at h
    subst h
    cases sv <;> exact ⟨_, rfl⟩
  · simp only at h
    subst h
    cases sv <;> cases ops <;> exact ⟨_, rfl⟩
  · simp only at hc
    subst hc
    obtain ⟨cm, cd⟩ := c
    have hm2 : cm = none := hm
    subst hm2
    cases sv <;> cases ops <;> exact ⟨_, rfl⟩

/-- Witness for C9: missing schema_version. -/
theorem c9_validation_fail_fast_witness :
    ∃ msg, undoFull false
        ⟨none, some [], some ⟨some "copy", some false⟩⟩ (fun _ => none) =
      Except.error msg :=
  c9_validation_fail_fast ⟨none, some [], some ⟨some "copy", some false⟩⟩
    (fun _ => none) false (Or.inl rfl)

/-- C10: every sidecar entry of every manifest record is undone with no
recorded size, and `_undo_one` with no recorded size succeeds whatever
the destination's current size is: the file is deleted in copy mode and
moved back to the recorded source otherwise. -/
theorem c10_sidecar_no_size_check :
    (∀ (ops : List UndoOp) (op : UndoOp) (sc : SidecarRec),
      op ∈ ops → sc ∈ op.sidecars →
      (sidecarEntry sc).size = none ∧ sidecarEntry sc ∈ undoEntries ops) ∧
    (∀ (src dest : String) (cur : Nat) (fs : FsU),
      fs dest = some cur →
      undoOne true false ⟨src, dest, none⟩ fs =
        ((fun p => if p = dest then none else fs p), true) ∧
      undoOne false false ⟨src, dest, none⟩ fs =
        ((fun p => if p = src then some cur
            else if p = dest then none else fs p), true)) := by
  constructor
  · intro ops op sc hop hsc
    refine ⟨rfl, ?_⟩
    unfold undoEntries
    rw [List.mem_flatMap]
    refine ⟨op, by simpa using hop, ?_⟩
    rw [List.mem_append]
    exact Or.inl (List.mem_map_of_mem sidecarEntry (by simpa using hsc))
  · intro src dest cur fs h
    constructor <;> simp [undoOne, undoApply, h]

/-- Witness for C10: a sidecar destination whose size changed to 7 is
still deleted in copy mode. -/
theorem c10_sidecar_no_size_check_witness :
    undoOne true false ⟨"s/a.xmp", "d/a.xmp", none⟩
        (fun p => if p = "d/a.xmp" then some 7 else none) =
      ((fun p => if p = "d/a.xmp" then none
          else (fun q => if q = "d/a.xmp" then some 7 else none) p), true) :=
  (c10_sidecar_no_size_check.2 "s/a.xmp" "d/a.xmp" 7
    (fun p => if p = "d/a.xmp" then some 7 else none) (by simp)).1

end PhotoCurator
